import Mathlib

/-
Verification of mangadex-downloader's interactive selection engine
(src/mangadex_downloader/cli/command.py) and the CoverArt data model
(src/mangadex_downloader/cover.py).

The engine is embedded shallowly: the externally supplied iterator is a
finite list of opaque items, the Paginator (an external collaborator that
is not part of the excerpted sources) is modelled from the spec, Python
dicts are association lists in insertion order, and the read-eval-print
loop of BaseCommand.prompt is a step function driven by a list of input
lines.  Python exceptions are explicit error values; the fatal
args_parser.error path is a terminal outcome.
-/

/-- An opaque domain item.  The engine only needs its identity (`id`);
`tag` lets two distinct items share an identity (duplicates by identity). -/
structure Item where
  id : Nat
  tag : Nat
  deriving DecidableEq, Repr

/-- The decimal digit character for `d < 10`, as produced by Python `str`. -/
def decDigit (d : Nat) : Char := Char.ofNat (48 + d)

/-- Fuel-driven decimal digit list of a natural number (most significant
first); with fuel above `n` this is the decimal representation of `n`. -/
def decDigitsAux : Nat → Nat → List Char
  | 0, _ => []
  | fuel + 1, n =>
    if n < 10 then [decDigit n]
    else decDigitsAux fuel (n / 10) ++ [decDigit (n % 10)]

/-- Embedding of Python `str(pos)` for a nonnegative integer position. -/
def natToDec (n : Nat) : String := String.mk (decDigitsAux (n + 1) n)

/-- Decimal decoding of a digit list; left inverse of `decDigitsAux`,
used to establish that `natToDec` is injective. -/
def decodeDec (l : List Char) : Nat := l.foldl (fun acc c => 10 * acc + (c.toNat - 48)) 0

/-- Embedding of Python `str.startswith`: character-wise prefix test. -/
def pyStartswith (s pat : String) : Bool := pat.data.isPrefixOf s.data

/-- Whether `pat` occurs as a contiguous run inside `l`
(embedding of Python `pat in s` on the character lists). -/
def containsSub (l pat : List Char) : Bool :=
  pat.isPrefixOf l ||
    match l with
    | [] => false
    | _ :: t => containsSub t pat

/-- Embedding of the Python substring test `pat in s`. -/
def strContains (s pat : String) : Bool := containsSub s.data pat.data

/-- Embedding of Python `str.strip()` (the model strips space characters). -/
def pyStrip (s : String) : String :=
  String.mk (((s.data.dropWhile (fun c => c == ' ')).reverse.dropWhile
    (fun c => c == ' ')).reverse)

/-- The argument of a `preview <label>` command:
`answer.split('preview', maxsplit=1)[1].strip()`; on the branch where it is
used `answer` starts with `"preview"`, so the split tail is `answer` with
its first 7 characters removed. -/
def previewArg (answer : String) : String := pyStrip (String.mk (answer.data.drop 7))

/-- A Python dict with string keys, as an association list in insertion
order (Python dicts preserve insertion order). -/
abbrev SDict (α : Type) := List (String × α)

/-- Dict lookup: `d[k]`, `none` when the key raises `KeyError`. -/
def dGet {α : Type} (d : SDict α) (k : String) : Option α :=
  (d.find? (fun kv => kv.1 == k)).map (fun kv => kv.2)

/-- Dict assignment `d[k] = v`: updates the entry in place when the key is
present, otherwise appends the new entry (Python insertion-order semantics). -/
def dInsert {α : Type} (d : SDict α) (k : String) (v : α) : SDict α :=
  if (dGet d k).isSome then d.map (fun kv => if kv.1 == k then (k, v) else kv)
  else d ++ [(k, v)]

/-- Dict `d.values()` in insertion order. -/
def dValues {α : Type} (d : SDict α) : List α := d.map (fun kv => kv.2)

/-- `(pos, item)` pairs with positions counting up from `s`
(the shape of one page produced by the Paginator). -/
def enumFromL {α : Type} : Nat → List α → List (Nat × α)
  | _, [] => []
  | s, a :: as => (s, a) :: enumFromL (s + 1) as

/-- The choice-set entries `(str(pos), item)` for a run of items whose
positions count up from `s`. -/
def labelPage (s : Nat) (l : List Item) : SDict Item :=
  (enumFromL s l).map (fun pi => (natToDec pi.1, pi.2))

/-- The choice set accumulated after the first `m` positions of the source
have been served: `str(j) ↦ source[j]` for `j < min m source.length`. -/
def mkChoices (source : List Item) (m : Nat) : SDict Item :=
  labelPage 0 (source.take m)

/-- The two failure modes of the Paginator: `IteratorEmpty` (no further
items in the requested direction) and `IndexError` (page out of range). -/
inductive PagErr
  | iteratorEmpty
  | indexError
  deriving DecidableEq, Repr

/-- Modelled from the spec: the Paginator external collaborator
(`from .utils import Paginator`, not part of the excerpted sources).  It
wraps a lazily-produced sequence and a page size, serves fixed-size pages
of `(position, item)` pairs forward and backward with positions stable
across the session (global item indices), raises `IteratorEmpty` when no
further items exist in the requested direction and an out-of-range
condition when `previous()` is called before any page has been fetched.
`page` is the index of the last page returned, `none` before any fetch. -/
structure Paginator where
  iterator : List Item
  limit : Nat
  page : Option Nat
  deriving DecidableEq, Repr

/-- `Paginator(iterator, limit)`: no page fetched yet. -/
def Paginator.init (iterator : List Item) (limit : Nat) : Paginator :=
  ⟨iterator, limit, none⟩

/-- Index of the page a `next()` call would serve. -/
def Paginator.nextIndex (pg : Paginator) : Nat :=
  match pg.page with
  | none => 0
  | some q => q + 1

/-- The items of page `p`: the slice `[p*limit, p*limit + limit)` of the source. -/
def pageSlice (source : List Item) (limit p : Nat) : List Item :=
  (source.drop (p * limit)).take limit

/-- Modelled from the spec: `Paginator.next()` serves the next page of up
to `limit` `(position, item)` pairs; `none` embeds raising `IteratorEmpty`
(the only failure mode of `next`). -/
def Paginator.next (pg : Paginator) : Option (List (Nat × Item) × Paginator) :=
  if (pageSlice pg.iterator pg.limit pg.nextIndex).isEmpty then none
  else some (enumFromL (pg.nextIndex * pg.limit) (pageSlice pg.iterator pg.limit pg.nextIndex),
    { pg with page := some pg.nextIndex })

/-- Modelled from the spec: `Paginator.previous()` re-serves the page
preceding the last one returned; raises the out-of-range condition before
any fetch and `IteratorEmpty` when already on the first page. -/
def Paginator.previous (pg : Paginator) : Except PagErr (List (Nat × Item) × Paginator) :=
  match pg.page with
  | none => .error .indexError
  | some 0 => .error .iteratorEmpty
  | some (q + 1) =>
    .ok (enumFromL (q * pg.limit) (pageSlice pg.iterator pg.limit q), { pg with page := some q })

/-- The navigation actions the prompt loop stores in its `action` variable. -/
inductive NavAction
  | next
  | previous
  deriving DecidableEq, Repr

/-- `getattr(self.paginator, action)()` for `action` in `{"next", "previous"}`. -/
def Paginator.doAction (pg : Paginator) (a : NavAction) : Except PagErr (List (Nat × Item) × Paginator) :=
  match a with
  | .next =>
    match pg.next with
    | some r => .ok r
    | none => .error .iteratorEmpty
  | .previous => pg.previous

/-- `BaseCommand._insert_choices`: `for pos, item in func(): choices[str(pos)] = item`
(the rendered text `self._text_choices` is display-only and not modelled). -/
def insertChoices (choices : SDict Item) (page : List (Nat × Item)) : SDict Item :=
  page.foldl (fun d pi => dInsert d (natToDec pi.1) pi.2) choices

/-- How the `_return_from` generator loop ends: `foundBreak` when the
requested label was found (`yield result; break`), or the fatal
`self._error(msg, exit=True)` path, which aborts the whole command. -/
inductive LoopEnd
  | foundBreak
  | fatalError (msg : String)
  deriving DecidableEq, Repr

/-- Outcome of the `BaseCommand._return_from` generator: `empty` when the
very first page fetch raises `IteratorEmpty` (`on_empty_error()` is invoked
and the generator yields nothing), else the list of yielded items together
with how the loop ended. -/
inductive GenOutcome
  | empty
  | ended (yielded : List Item) (e : LoopEnd)
  deriving DecidableEq, Repr

/-- The `while True` loop of `BaseCommand._return_from` (lines 126-145):
look the requested label up in the accumulated choices (yield it and break
when found); when the label is the wildcard `*`, yield every accumulated
value; then fetch the next page into the choices; `IteratorEmpty` there is
fatal.  (The `IndexError` handler of the source is unreachable here because
`next()` only raises `IteratorEmpty`.)  Returns the yielded items and the
way the loop ended. -/
def returnFromLoop (pos : String) (choices : SDict Item) (pg : Paginator) : List Item × LoopEnd :=
  match dGet choices pos with
  | some result => ([result], .foundBreak)
  | none =>
    let ys := if pos = "*" then dValues choices else []
    match h : pg.next with
    | some (page, pg2) =>
      let r := returnFromLoop pos (insertChoices choices page) pg2
      (ys ++ r.1, r.2)
    | none => (ys, .fatalError "There are no more results")
termination_by pg.iterator.length - pg.nextIndex * pg.limit
decreasing_by
  unfold Paginator.next at h
  by_cases he : (pageSlice pg.iterator pg.limit pg.nextIndex).isEmpty
  · rw [if_pos he] at h
    cases h
  · rw [if_neg he] at h
    have hpg2 : pg2 = { pg with page := some pg.nextIndex } := by
      injection h with h2
      injection h2 with hA hB
      exact hB.symm
    have hslice : pageSlice pg.iterator pg.limit pg.nextIndex ≠ [] := by
      intro hx
      exact he (by rw [hx]; rfl)
    have hlim : 0 < pg.limit ∧ pg.nextIndex * pg.limit < pg.iterator.length := by
      unfold pageSlice at hslice
      rw [Ne, List.take_eq_nil_iff] at hslice
      push_neg at hslice
      obtain ⟨h1, h2⟩ := hslice
      rw [Ne, List.drop_eq_nil_iff] at h2
      push_neg at h2
      omega
    subst hpg2
    have hni : Paginator.nextIndex { pg with page := some pg.nextIndex } = pg.nextIndex + 1 := rfl
    rw [hni]
    dsimp only
    have hm : (pg.nextIndex + 1) * pg.limit = pg.nextIndex * pg.limit + pg.limit := by ring
    omega

/-- `BaseCommand._return_from(pos)` (lines 117-145): insert the first page
(on `IteratorEmpty` invoke `on_empty_error()` and yield nothing), then run
the loop. -/
def returnFrom (pos : String) (iterator : List Item) (limit : Nat) : GenOutcome :=
  match (Paginator.init iterator limit).next with
  | none => .empty
  | some (page, pg2) =>
    let r := returnFromLoop pos (insertChoices [] page) pg2
    .ended r.1 r.2

/-- The body of `iter_answer` in `MangaDexCommand.prompt` (lines 206-212):
yield `item.id` for each item whose id has not been yielded yet, keeping the
accumulated `ids` list. -/
def iterGo (ids : List Nat) : List Item → List Nat
  | [] => []
  | item :: rest =>
    if item.id ∈ ids then iterGo ids rest
    else item.id :: iterGo (ids ++ [item.id]) rest

/-- The `ids` list as left behind by `iterGo` after processing a list. -/
def iterSeen (ids : List Nat) : List Item → List Nat
  | [] => ids
  | item :: rest =>
    if item.id ∈ ids then iterSeen ids rest
    else iterSeen (ids ++ [item.id]) rest

/-- `MangaDexCommand.prompt`'s `iter_answer()` over a fully materialised
iterable answer: the yielded ids, deduplicated by identity. -/
def iterAnswer (items : List Item) : List Nat := iterGo [] items

/-- Specification-side first-seen deduplication of a list of identities:
every distinct element exactly once, in first-seen order. -/
def dedupFS : List Nat → List Nat
  | [] => []
  | x :: xs => x :: dedupFS (xs.filter (fun y => y ≠ x))
termination_by l => l.length
decreasing_by
  exact Nat.lt_succ_of_le (List.length_filter_le _ _)

/-- What `super().prompt(...)` can hand to `MangaDexCommand.prompt`:
a single (non-iterable) item, an iterable of items (the `_return_from`
generator, fully materialised), or Python `None`. -/
inductive PyValue
  | item (it : Item)
  | iterable (items : List Item)
  | pyNone

/-- Result of `MangaDexCommand.prompt`: a list of item identities, or the
`AttributeError` raised when the answer is `None` (`None.id` on line 218). -/
inductive MDResult
  | ids (l : List Nat)
  | attributeError
  deriving DecidableEq, Repr

/-- `MangaDexCommand.prompt` (lines 199-220) after the underlying prompt
returned `answer`: `iter(answer)` raising `TypeError` selects the
single-item path `[answer.id]`; otherwise the deduplicating generator
`iter_answer()` is returned. -/
def mdPromptWrap : PyValue → MDResult
  | .item it => .ids [it.id]
  | .iterable items => .ids (iterAnswer items)
  | .pyNone => .attributeError

/-- The items yielded by a `_return_from` generator outcome. -/
def genYields : GenOutcome → List Item
  | .empty => []
  | .ended ys _ => ys

/-- `MangaDexCommand.prompt(input_pos=pos)`: the identities produced by
`iter_answer()` over the `_return_from` generator (when the generator ends
fatally, these are the ids the consumer received before the abort). -/
def mdResolvePositional (pos : String) (iterator : List Item) (limit : Nat) : List Nat :=
  iterAnswer (genYields (returnFrom pos iterator limit))

/-- The mutable state of one interactive `BaseCommand.prompt` session:
the accumulated choices dict, the paginator, and the Python local variable
`action` (`none` models "never assigned": referencing it then raises
`UnboundLocalError`). -/
structure PromptState where
  choices : SDict Item
  paginator : Paginator
  lastAction : Option NavAction
  deriving DecidableEq, Repr

/-- How one iteration of the interactive loop ends: returning an item,
crashing with `UnboundLocalError`, or looping back to await input. -/
inductive StepExit
  | returned (item : Item)
  | crashed
  | looped
  deriving DecidableEq, Repr

/-- Observable outcome of one iteration of the interactive loop:
the exit kind, the state afterwards, the number of paginator fetch
attempts, the error messages printed by `self._error`, and the items
passed to `self.on_preview`. -/
structure StepOut where
  exit : StepExit
  state : PromptState
  fetchAttempts : Nat
  errors : List String
  previews : List Item
  deriving DecidableEq, Repr

/-- The `try: self._insert_choices(choices, action)` block of
`BaseCommand.prompt` (lines 189-194): fetch a page for `action`, merge it
into the choices and record `action` as last assigned; `IteratorEmpty` and
`IndexError` are recoverable, printing a message. -/
def insertChoicesStep (s : PromptState) (a : NavAction) (preErrors : List String) : StepOut :=
  match s.paginator.doAction a with
  | .ok (page, pg2) => ⟨.looped, ⟨insertChoices s.choices page, pg2, some a⟩, 1, preErrors, []⟩
  | .error .iteratorEmpty =>
    ⟨.looped, ⟨s.choices, s.paginator, some a⟩, 1, preErrors ++ ["There are no more results"], []⟩
  | .error .indexError =>
    ⟨.looped, ⟨s.choices, s.paginator, some a⟩, 1,
      preErrors ++ ["Choices are out of range, try again"], []⟩

/-- One iteration of the `while True` loop of `BaseCommand.prompt`
(lines 162-197) dispatching on a non-`None` `answer`: `preview` handling
(only when `self.preview()` holds), then the `startswith` navigation
branches, then exact label lookup; an unmatched input prints
"Invalid choice, try again" and falls through to the insert block with the
*stale* `action` — which is `UnboundLocalError` when no navigation command
was ever entered. -/
def promptStep (previewSupported : Bool) (s : PromptState) (answer : String) : StepOut :=
  if pyStartswith answer "preview" && previewSupported then
    match dGet s.choices (previewArg answer) with
    | some item => ⟨.looped, s, 0, [], [item]⟩
    | none => ⟨.looped, s, 0, ["Invalid choice, try again"], []⟩
  else if pyStartswith answer "next" then
    insertChoicesStep s .next []
  else if pyStartswith answer "previous" then
    insertChoicesStep s .previous []
  else
    match dGet s.choices answer with
    | some item => ⟨.returned item, s, 0, [], []⟩
    | none =>
      match s.lastAction with
      | none => ⟨.crashed, s, 0, ["Invalid choice, try again"], []⟩
      | some a => insertChoicesStep s a ["Invalid choice, try again"]

/-- How a whole interactive prompt session ends: an item was selected, the
loop crashed, the scripted input ran out while awaiting more, or the very
first fetch was empty and `on_empty_error()` ran. -/
inductive RunOutcome
  | selected (item : Item)
  | crashed
  | awaitingInput (s : PromptState)
  | emptyHooked
  deriving DecidableEq, Repr

/-- Observables of a whole interactive prompt session. -/
structure RunOut where
  outcome : RunOutcome
  emptyHookCalls : Nat
  fetchAttempts : Nat
  errors : List String
  previews : List Item
  deriving DecidableEq, Repr

/-- The interactive loop of `BaseCommand.prompt` driven by a list of input
lines (each loop iteration consumes exactly one line at its end). -/
def promptRunLoop (previewSupported : Bool) (s : PromptState) : List String → RunOut
  | [] => ⟨.awaitingInput s, 0, 0, [], []⟩
  | answer :: rest =>
    let o := promptStep previewSupported s answer
    match o.exit with
    | .returned item => ⟨.selected item, 0, o.fetchAttempts, o.errors, o.previews⟩
    | .crashed => ⟨.crashed, 0, o.fetchAttempts, o.errors, o.previews⟩
    | .looped =>
      let r := promptRunLoop previewSupported o.state rest
      ⟨r.outcome, r.emptyHookCalls, o.fetchAttempts + r.fetchAttempts,
        o.errors ++ r.errors, o.previews ++ r.previews⟩

/-- `BaseCommand.prompt()` without `input_pos` (lines 147-197): insert the
first page (on `IteratorEmpty` invoke `on_empty_error()` exactly once and
return no selection), then run the interactive loop on the input lines. -/
def promptRun (previewSupported : Bool) (iterator : List Item) (limit : Nat)
    (inputs : List String) : RunOut :=
  match (Paginator.init iterator limit).next with
  | none => ⟨.emptyHooked, 1, 1, [], []⟩
  | some (page, pg2) =>
    let r := promptRunLoop previewSupported ⟨insertChoices [] page, pg2, none⟩ inputs
    ⟨r.outcome, r.emptyHookCalls, 1 + r.fetchAttempts, r.errors, r.previews⟩

/-- A fragment of the JSON values the MangaDex API returns. -/
inductive JVal
  | jstr (s : String)
  | jdict (fields : List (String × JVal))
  | jnull

/-- Python subscription `v[k]`: `KeyError` when a dict lacks the key,
`TypeError` when `v` is not a dict. -/
def jGet : JVal → String → Except String JVal
  | .jdict d, k =>
    match d.find? (fun kv => kv.1 == k) with
    | some kv => .ok kv.2
    | none => .error "KeyError"
  | _, _ => .error "TypeError"

/-- Python truthiness test `not data` for the `data` argument:
true for `None`, an empty mapping and an empty string. -/
def jFalsy : JVal → Bool
  | .jnull => true
  | .jdict d => d.isEmpty
  | .jstr s => s.isEmpty

/-- The fields `CoverArt.__init__` assigns (cover.py lines 36-55). -/
structure CoverArt where
  data : JVal
  id : JVal
  description : JVal
  volume : JVal
  file : JVal
  locale : String

/-- The field mapping shared by both branches of `CoverArt.__init__`:
`id = data['id']`, and `description`, `volume`, `fileName` and `locale`
from `data['attributes']`, the locale passed through `get_language`. -/
def coverFields (getLanguage : JVal → String) (d : JVal) : Except String CoverArt := do
  let idv ← jGet d "id"
  let attr ← jGet d "attributes"
  let desc ← jGet attr "description"
  let vol ← jGet attr "volume"
  let fileName ← jGet attr "fileName"
  let loc ← jGet attr "locale"
  return ⟨d, idv, desc, vol, fileName, getLanguage loc⟩

/-- `CoverArt.__init__(cover_id, data)` (cover.py lines 36-55).
`getCoverArt` embeds the external network fetcher `get_cover_art` and
`getLanguage` the external `get_language`; the returned flag records
whether the network branch (`if not data`) was taken. -/
def CoverArt.init (getCoverArt : String → JVal) (getLanguage : JVal → String)
    (coverId : String) (data : JVal) : Except String (CoverArt × Bool) := do
  let fetched := jFalsy data
  let d ← if jFalsy data then jGet (getCoverArt coverId) "data" else .ok data
  let idv ← jGet d "id"
  let attr ← jGet d "attributes"
  let desc ← jGet attr "description"
  let vol ← jGet attr "volume"
  let fileName ← jGet attr "fileName"
  let loc ← jGet attr "locale"
  return (⟨d, idv, desc, vol, fileName, getLanguage loc⟩, fetched)

/-- A value of the `filter_kwargs` mapping built by
`SearchMangaCommand.__init__`: a scalar string, a list of strings, or the
nested ordering mapping. -/
inductive FVal
  | fstr (s : String)
  | flist (xs : List String)
  | fnested (d : List (String × FVal))

/-- Split a character list at the first occurrence of `c`:
`(before, after)`, with `after = []` when `c` does not occur. -/
def splitFirst (c : Char) : List Char → List Char × List Char
  | [] => ([], [])
  | x :: xs =>
    if x == c then ([], xs)
    else
      let r := splitFirst c xs
      (x :: r.1, r.2)

/-- Modelled from the spec: the external helper `get_key_value`
(`from .utils import get_key_value`, not part of the excerpted sources):
splits a `key<sep>value` token at the first separator; the value is empty
when the separator is absent. -/
def getKeyValue (text : String) (sep : Char) : String × String :=
  let r := splitFirst sep text.data
  (String.mk r.1, String.mk r.2)

/-- Split a character list on every occurrence of `c` (Python `str.split(c)`). -/
def splitOnCharAux (c : Char) : List Char → List Char → List (List Char)
  | [], acc => [acc.reverse]
  | x :: xs, acc =>
    if x == c then acc.reverse :: splitOnCharAux c xs []
    else splitOnCharAux c xs (x :: acc)

/-- The comma-separated pieces of a value string. -/
def splitCommaList (value : String) : List String :=
  (splitOnCharAux ',' value.data []).map String.mk

/-- Modelled from the spec: the external helper `split_comma_separated`
(`from .utils import split_comma_separated`, not part of the excerpted
sources): comma-splits a value into a list, except that a single value is
kept scalar unless `single_value_to_list` is set. -/
def splitCommaSeparated (value : String) (singleValueToList : Bool) : FVal :=
  if (splitCommaList value).length == 1 && !singleValueToList then .fstr value
  else .flist (splitCommaList value)

/-- One iteration of the filter-parsing loop of `SearchMangaCommand.__init__`
(lines 326-342): a fresh key maps to `split_comma_separated(value)`; a
repeated key accumulates into a list (a previous scalar is wrapped first,
and the new value is split with `single_value_to_list=True`).  The nested
case cannot occur during parsing, which only inserts scalars and lists. -/
def addFilter (fk : SDict FVal) (f : String) : SDict FVal :=
  let kv := getKeyValue f '='
  match dGet fk kv.1 with
  | none => dInsert fk kv.1 (splitCommaSeparated kv.2 false)
  | some old =>
    let newValues :=
      match old with
      | .fstr s => [s]
      | .flist xs => xs
      | .fnested _ => []
    dInsert fk kv.1 (.flist (newValues ++ splitCommaList kv.2))

/-- The flat `filter_kwargs` mapping after the parsing loop of
`SearchMangaCommand.__init__`, before ordering keys are extracted. -/
def accumulateFilters (filters : List String) : SDict FVal :=
  filters.foldl addFilter []

/-- The `orders` mapping: the loop over `filter_kwargs.keys()` copying
every entry whose key contains `'order'` (lines 346-348), in insertion
order, keyed by the unchanged full key. -/
def collectOrders (fk : SDict FVal) : SDict FVal :=
  fk.filter (fun kv => strContains kv.1 "order")

/-- The loop `for key in orders.keys(): filter_kwargs.pop(key)`
(lines 352-353); keys are unique in the mapping, so removing every entry
with the key equals `dict.pop`. -/
def popKeys (fk : SDict FVal) (ks : List String) : SDict FVal :=
  ks.foldl (fun d k => d.filter (fun kv => !(kv.1 == k))) fk

/-- The whole filter-parsing section of `SearchMangaCommand.__init__`
(lines 322-356): accumulate the flat mapping, extract the ordering keys,
pop them, then assign `filter_kwargs['order'] = orders`. -/
def parseFilters (filters : List String) : SDict FVal :=
  let fk := accumulateFilters filters
  let orders := collectOrders fk
  let fk2 := popKeys fk (orders.map (fun kv => kv.1))
  dInsert fk2 "order" (.fnested orders)

theorem decDigit_toNat (d : Nat) (h : d < 10) : (decDigit d).toNat = 48 + d := by
  interval_cases d <;> decide

theorem decDigit_isDigit (d : Nat) (h : d < 10) : (decDigit d).isDigit = true := by
  interval_cases d <;> decide

theorem decDigitsAux_fuel (n : Nat) : ∀ f1 f2 : Nat, n < f1 → n < f2 →
    decDigitsAux f1 n = decDigitsAux f2 n := by
  induction n using Nat.strong_induction_on with
  | _ n ih =>
    intro f1 f2 h1 h2
    cases f1 with
    | zero => omega
    | succ g1 =>
      cases f2 with
      | zero => omega
      | succ g2 =>
        by_cases hn : n < 10
        · simp [decDigitsAux, hn]
        · simp only [decDigitsAux, if_neg hn]
          rw [ih (n / 10) (Nat.div_lt_self (by omega) (by omega)) g1 g2 (by omega) (by omega)]

theorem decDigits_unfold (n : Nat) : decDigitsAux (n + 1) n =
    if n < 10 then [decDigit n]
    else decDigitsAux (n / 10 + 1) (n / 10) ++ [decDigit (n % 10)] := by
  have h1 : decDigitsAux (n + 1) n =
      if n < 10 then [decDigit n] else decDigitsAux n (n / 10) ++ [decDigit (n % 10)] := rfl
  rw [h1]
  by_cases hn : n < 10
  · rw [if_pos hn, if_pos hn]
  · rw [if_neg hn, if_neg hn]
    rw [decDigitsAux_fuel (n / 10) n (n / 10 + 1)
      (Nat.div_lt_self (by omega) (by omega)) (by omega)]

theorem decDigits_ne_nil (n : Nat) : decDigitsAux (n + 1) n ≠ [] := by
  rw [decDigits_unfold]
  split <;> simp

theorem decDigits_all_digits (n : Nat) : ∀ c ∈ decDigitsAux (n + 1) n, c.isDigit = true := by
  induction n using Nat.strong_induction_on with
  | _ n ih =>
    rw [decDigits_unfold]
    split
    · next h => simp [decDigit_isDigit n h]
    · next h =>
      intro c hc
      simp only [List.mem_append, List.mem_singleton] at hc
      rcases hc with hc | hc
      · exact ih (n / 10) (Nat.div_lt_self (by omega) (by omega)) c hc
      · rw [hc]
        exact decDigit_isDigit _ (Nat.mod_lt _ (by omega))

theorem decodeDec_aux (n : Nat) : ∀ b : Nat,
    (decDigitsAux (n + 1) n).foldl (fun acc c => 10 * acc + (c.toNat - 48)) b =
      b * 10 ^ (decDigitsAux (n + 1) n).length + n := by
  induction n using Nat.strong_induction_on with
  | _ n ih =>
    intro b
    rw [decDigits_unfold]
    split
    · next h =>
      simp [List.foldl, decDigit_toNat n h]
      ring
    · next h =>
      rw [List.foldl_append]
      rw [ih (n / 10) (Nat.div_lt_self (by omega) (by omega)) b]
      simp [decDigit_toNat (n % 10) (Nat.mod_lt _ (by omega))]
      rw [Nat.mul_add, Nat.pow_succ]
      have := Nat.div_add_mod n 10
      ring_nf
      omega

theorem decodeDec_decDigits (n : Nat) : decodeDec (decDigitsAux (n + 1) n) = n := by
  have := decodeDec_aux n 0
  simpa [decodeDec] using this

theorem natToDec_inj {m n : Nat} (h : natToDec m = natToDec n) : m = n := by
  have hd : decDigitsAux (m + 1) m = decDigitsAux (n + 1) n := congrArg String.data h
  have hm := decodeDec_decDigits m
  rw [hd, decodeDec_decDigits n] at hm
  omega

theorem natToDec_data (n : Nat) : (natToDec n).data = decDigitsAux (n + 1) n := rfl

theorem natToDec_ne_star (n : Nat) : natToDec n ≠ "*" := by
  intro h
  have hd : decDigitsAux (n + 1) n = ['*'] := congrArg String.data h
  have h2 := decDigits_all_digits n
  rw [hd] at h2
  have h3 := h2 '*' (by simp)
  exact absurd h3 (by decide)

theorem headNotDigit_not_pre (c0 : Char) (rest l : List Char) (hc0 : c0.isDigit = false)
    (hdig : ∀ c ∈ l, c.isDigit = true) : (c0 :: rest).isPrefixOf l = false := by
  cases l with
  | nil => rfl
  | cons b bs =>
    have hb := hdig b (List.mem_cons_self b bs)
    have hne : (c0 == b) = false := by
      cases hcb : c0 == b
      · rfl
      · have hceq : c0 = b := eq_of_beq hcb
        rw [← hceq] at hb
        rw [hc0] at hb
        cases hb
    show ((c0 == b) && rest.isPrefixOf bs) = false
    rw [hne]
    rfl

theorem digitKey_not_command (k : String) (hne : k.data ≠ [])
    (hdig : ∀ c ∈ k.data, c.isDigit = true) :
    pyStartswith k "preview" = false ∧ pyStartswith k "next" = false ∧
      pyStartswith k "previous" = false := by
  refine ⟨?_, ?_, ?_⟩
  · exact headNotDigit_not_pre 'p' ['r', 'e', 'v', 'i', 'e', 'w'] k.data (by decide) hdig
  · exact headNotDigit_not_pre 'n' ['e', 'x', 't'] k.data (by decide) hdig
  · exact headNotDigit_not_pre 'p' ['r', 'e', 'v', 'i', 'o', 'u', 's'] k.data (by decide) hdig

theorem natToDec_not_command (n : Nat) :
    pyStartswith (natToDec n) "preview" = false ∧ pyStartswith (natToDec n) "next" = false ∧
      pyStartswith (natToDec n) "previous" = false :=
  digitKey_not_command (natToDec n) (decDigits_ne_nil n) (decDigits_all_digits n)

theorem dGet_cons {α : Type} (kv : String × α) (d : SDict α) (k : String) :
    dGet (kv :: d) k = if kv.1 = k then some kv.2 else dGet d k := by
  by_cases h : kv.1 = k
  · rw [if_pos h]
    unfold dGet
    rw [List.find?_cons_of_pos _ (by simp [h])]
    rfl
  · rw [if_neg h]
    unfold dGet
    rw [List.find?_cons_of_neg _ (by simp [h])]

theorem dGet_append {α : Type} (d1 d2 : SDict α) (k : String) :
    dGet (d1 ++ d2) k = (dGet d1 k).or (dGet d2 k) := by
  unfold dGet
  rw [List.find?_append]
  cases hf : d1.find? (fun kv => kv.1 == k) <;> simp

theorem dGet_update {α : Type} (d : SDict α) (k k2 : String) (v : α) :
    dGet (d.map (fun kv => if kv.1 == k then (k, v) else kv)) k2 =
      if k2 = k then (dGet d k).map (fun _ => v) else dGet d k2 := by
  induction d with
  | nil => by_cases h : k2 = k <;> simp [dGet, h]
  | cons a d ih =>
    by_cases h2 : k2 = k
    · rw [if_pos h2]
      subst h2
      by_cases ha : a.1 = k2
      · have hstep : List.map (fun kv => if kv.1 == k2 then (k2, v) else kv) (a :: d) =
            (k2, v) :: List.map (fun kv => if kv.1 == k2 then (k2, v) else kv) d := by
          rw [List.map_cons]
          congr 1
          simp [ha]
        rw [hstep, dGet_cons, if_pos rfl, dGet_cons, if_pos ha]
        rfl
      · have hstep : List.map (fun kv => if kv.1 == k2 then (k2, v) else kv) (a :: d) =
            a :: List.map (fun kv => if kv.1 == k2 then (k2, v) else kv) d := by
          rw [List.map_cons]
          congr 1
          simp [ha]
        rw [hstep, dGet_cons, if_neg ha, dGet_cons, if_neg ha]
        rw [ih, if_pos rfl]
    · rw [if_neg h2]
      by_cases ha : a.1 = k
      · have hstep : List.map (fun kv => if kv.1 == k then (k, v) else kv) (a :: d) =
            (k, v) :: List.map (fun kv => if kv.1 == k then (k, v) else kv) d := by
          rw [List.map_cons]
          congr 1
          simp [ha]
        rw [hstep, dGet_cons, dGet_cons]
        rw [if_neg (fun hx : k = k2 => h2 hx.symm)]
        rw [if_neg (fun hx : a.1 = k2 => h2 (hx.symm.trans ha))]
        rw [ih, if_neg h2]
      · have hstep : List.map (fun kv => if kv.1 == k then (k, v) else kv) (a :: d) =
            a :: List.map (fun kv => if kv.1 == k then (k, v) else kv) d := by
          rw [List.map_cons]
          congr 1
          simp [ha]
        rw [hstep, dGet_cons, dGet_cons]
        by_cases hak : a.1 = k2
        · rw [if_pos hak, if_pos hak]
        · rw [if_neg hak, if_neg hak, ih, if_neg h2]

theorem dGet_insert {α : Type} (d : SDict α) (k k2 : String) (v : α) :
    dGet (dInsert d k v) k2 = if k2 = k then some v else dGet d k2 := by
  unfold dInsert
  by_cases hp : (dGet d k).isSome
  · rw [if_pos hp, dGet_update]
    by_cases h2 : k2 = k
    · rw [if_pos h2, if_pos h2]
      obtain ⟨w, hw⟩ := Option.isSome_iff_exists.mp hp
      rw [hw]
      rfl
    · rw [if_neg h2, if_neg h2]
  · rw [if_neg hp, dGet_append]
    by_cases h2 : k2 = k
    · rw [if_pos h2, h2]
      rw [Option.not_isSome_iff_eq_none.mp hp]
      rw [dGet_cons]
      simp
    · rw [if_neg h2, dGet_cons]
      rw [if_neg (fun hx => h2 hx.symm)]
      simp [dGet]

theorem dInsert_fresh {α : Type} (d : SDict α) (k : String) (v : α) (h : dGet d k = none) :
    dInsert d k v = d ++ [(k, v)] := by
  unfold dInsert
  rw [h]
  rfl

theorem dGet_insertChoices_isSome (page : List (Nat × Item)) (d : SDict Item) (k : String)
    (h : (dGet d k).isSome) : (dGet (insertChoices d page) k).isSome := by
  induction page generalizing d with
  | nil => exact h
  | cons pi rest ih =>
    have hstep : insertChoices d (pi :: rest) =
        insertChoices (dInsert d (natToDec pi.1) pi.2) rest := rfl
    rw [hstep]
    apply ih
    rw [dGet_insert]
    split
    · simp
    · exact h

theorem enumFromL_append {α : Type} (s : Nat) (l1 l2 : List α) :
    enumFromL s (l1 ++ l2) = enumFromL s l1 ++ enumFromL (s + l1.length) l2 := by
  induction l1 generalizing s with
  | nil => simp [enumFromL]
  | cons a rest ih =>
    show (s, a) :: enumFromL (s + 1) (rest ++ l2) = _
    rw [ih (s + 1)]
    have : s + 1 + rest.length = s + (a :: rest).length := by simp; omega
    rw [this]
    rfl

theorem labelPage_append (s : Nat) (l1 l2 : List Item) :
    labelPage s (l1 ++ l2) = labelPage s l1 ++ labelPage (s + l1.length) l2 := by
  unfold labelPage
  rw [enumFromL_append, List.map_append]

theorem labelPage_cons (s : Nat) (a : Item) (rest : List Item) :
    labelPage s (a :: rest) = (natToDec s, a) :: labelPage (s + 1) rest := rfl

theorem dGet_labelPage_none (l : List Item) (s : Nat) (k : String)
    (h : ∀ j < l.length, natToDec (s + j) ≠ k) : dGet (labelPage s l) k = none := by
  induction l generalizing s with
  | nil => rfl
  | cons a rest ih =>
    rw [labelPage_cons, dGet_cons]
    have h0 : natToDec s ≠ k := by
      have := h 0 (by simp)
      simpa using this
    rw [if_neg h0]
    apply ih
    intro j hj
    have heq : s + 1 + j = s + (j + 1) := by omega
    rw [heq]
    exact h (j + 1) (by simp; omega)

theorem dGet_labelPage_found (l : List Item) (s j : Nat) (hj : j < l.length) :
    dGet (labelPage s l) (natToDec (s + j)) = some (l.get ⟨j, hj⟩) := by
  induction l generalizing s j with
  | nil => simp at hj
  | cons a rest ih =>
    cases j with
    | zero =>
      rw [labelPage_cons, dGet_cons]
      simp
    | succ j2 =>
      rw [labelPage_cons, dGet_cons]
      have hne : natToDec s ≠ natToDec (s + (j2 + 1)) := by
        intro hx
        have := natToDec_inj hx
        omega
      rw [if_neg hne]
      have heq : s + (j2 + 1) = s + 1 + j2 := by omega
      rw [heq]
      have hj2 : j2 < rest.length := by simpa using Nat.lt_of_succ_lt_succ hj
      rw [ih (s + 1) j2 hj2]
      rfl

theorem dValues_labelPage (s : Nat) (l : List Item) : dValues (labelPage s l) = l := by
  induction l generalizing s with
  | nil => rfl
  | cons a rest ih =>
    rw [labelPage_cons]
    show a :: dValues (labelPage (s + 1) rest) = a :: rest
    rw [ih (s + 1)]

theorem dValues_mkChoices (source : List Item) (m : Nat) :
    dValues (mkChoices source m) = source.take m := dValues_labelPage 0 (source.take m)

theorem insertChoices_fresh (l : List Item) (d : SDict Item) (s : Nat)
    (h : ∀ j < l.length, dGet d (natToDec (s + j)) = none) :
    insertChoices d (enumFromL s l) = d ++ labelPage s l := by
  induction l generalizing d s with
  | nil => simp [insertChoices, enumFromL, labelPage]
  | cons a rest ih =>
    show insertChoices (dInsert d (natToDec s) a) (enumFromL (s + 1) rest) = _
    rw [dInsert_fresh d (natToDec s) a (by simpa using h 0 (by simp))]
    rw [ih (d ++ [(natToDec s, a)]) (s + 1) ?_]
    · rw [labelPage_cons, List.append_assoc]
      rfl
    · intro j hj
      rw [dGet_append]
      have h1 : dGet d (natToDec (s + 1 + j)) = none := by
        have heq : s + 1 + j = s + (j + 1) := by omega
        rw [heq]
        exact h (j + 1) (by simp; omega)
      rw [h1]
      rw [dGet_cons]
      rw [if_neg (fun hx => by have := natToDec_inj hx; omega)]
      rfl

theorem mkChoices_big (source : List Item) (m : Nat) (h : source.length ≤ m) :
    mkChoices source m = labelPage 0 source := by
  unfold mkChoices
  rw [List.take_of_length_le h]

theorem insertChoices_page (source : List Item) (L p : Nat) :
    insertChoices (mkChoices source (p * L)) (enumFromL (p * L) (pageSlice source L p)) =
      mkChoices source (p * L + L) := by
  by_cases hm : p * L ≤ source.length
  · have hlen : (source.take (p * L)).length = p * L := by
      rw [List.length_take]
      omega
    have hfresh : ∀ j < (pageSlice source L p).length,
        dGet (mkChoices source (p * L)) (natToDec (p * L + j)) = none := by
      intro j hj
      apply dGet_labelPage_none
      intro j2 hj2 heq
      have := natToDec_inj heq
      rw [hlen] at hj2
      omega
    rw [insertChoices_fresh _ _ _ hfresh]
    unfold mkChoices
    rw [List.take_add]
    rw [labelPage_append]
    have h0 : (0 : Nat) + (source.take (p * L)).length = p * L := by rw [hlen]; omega
    rw [h0]
    rfl
  · have hs : pageSlice source L p = [] := by
      unfold pageSlice
      rw [List.drop_eq_nil_iff.mpr (by omega)]
      exact List.take_nil
    rw [hs]
    show mkChoices source (p * L) = mkChoices source (p * L + L)
    rw [mkChoices_big _ _ (by omega), mkChoices_big _ _ (by omega)]

theorem pageSlice_ne_nil_facts {source : List Item} {L p : Nat}
    (h : pageSlice source L p ≠ []) : p * L < source.length ∧ 0 < L := by
  unfold pageSlice at h
  rw [Ne, List.take_eq_nil_iff] at h
  push_neg at h
  obtain ⟨h1, h2⟩ := h
  rw [Ne, List.drop_eq_nil_iff] at h2
  push_neg at h2
  omega

theorem pageSlice_nil_of_le {source : List Item} {L p : Nat} (h : source.length ≤ p * L) :
    pageSlice source L p = [] := by
  unfold pageSlice
  rw [List.drop_eq_nil_iff.mpr h]
  exact List.take_nil

theorem Paginator.next_none {pg : Paginator}
    (h : pageSlice pg.iterator pg.limit pg.nextIndex = []) : pg.next = none := by
  unfold Paginator.next
  rw [if_pos (by rw [h]; rfl)]

theorem Paginator.next_some {pg : Paginator}
    (h : pageSlice pg.iterator pg.limit pg.nextIndex ≠ []) :
    pg.next = some (enumFromL (pg.nextIndex * pg.limit) (pageSlice pg.iterator pg.limit pg.nextIndex),
      { pg with page := some pg.nextIndex }) := by
  unfold Paginator.next
  rw [if_neg (by simpa [List.isEmpty_iff] using h)]

theorem iterGo_nil (seen : List Nat) : iterGo seen [] = [] := rfl

theorem iterGo_cons (seen : List Nat) (it : Item) (rest : List Item) :
    iterGo seen (it :: rest) =
      if it.id ∈ seen then iterGo seen rest else it.id :: iterGo (seen ++ [it.id]) rest := rfl

theorem iterSeen_nil (seen : List Nat) : iterSeen seen [] = seen := rfl

theorem iterSeen_cons (seen : List Nat) (it : Item) (rest : List Item) :
    iterSeen seen (it :: rest) =
      if it.id ∈ seen then iterSeen seen rest else iterSeen (seen ++ [it.id]) rest := rfl

theorem iterGo_append (a b : List Item) : ∀ seen : List Nat,
    iterGo seen (a ++ b) = iterGo seen a ++ iterGo (iterSeen seen a) b := by
  induction a with
  | nil => intro seen; rfl
  | cons it rest ih =>
    intro seen
    rw [List.cons_append, iterGo_cons, iterGo_cons, iterSeen_cons]
    by_cases h : it.id ∈ seen
    · rw [if_pos h, if_pos h, if_pos h, ih]
    · rw [if_neg h, if_neg h, if_neg h, ih, List.cons_append]

theorem mem_iterSeen (a : List Item) : ∀ (seen : List Nat) (x : Nat), x ∈ seen → x ∈ iterSeen seen a := by
  induction a with
  | nil => intro seen x hx; exact hx
  | cons it rest ih =>
    intro seen x hx
    rw [iterSeen_cons]
    by_cases h : it.id ∈ seen
    · rw [if_pos h]
      exact ih seen x hx
    · rw [if_neg h]
      exact ih (seen ++ [it.id]) x (List.mem_append_left _ hx)

theorem mem_iterSeen_item (a : List Item) : ∀ (seen : List Nat) (it : Item), it ∈ a →
    it.id ∈ iterSeen seen a := by
  induction a with
  | nil => intro seen it h; simp at h
  | cons it2 rest ih =>
    intro seen it hmem
    rw [iterSeen_cons]
    rcases List.mem_cons.mp hmem with hh | ht
    · subst hh
      by_cases h : it.id ∈ seen
      · rw [if_pos h]
        exact mem_iterSeen rest seen it.id h
      · rw [if_neg h]
        exact mem_iterSeen rest (seen ++ [it.id]) it.id
          (List.mem_append_right _ (List.mem_singleton.mpr rfl))
    · by_cases h : it2.id ∈ seen
      · rw [if_pos h]
        exact ih seen it ht
      · rw [if_neg h]
        exact ih (seen ++ [it2.id]) it ht

theorem iterGo_all_seen (a : List Item) : ∀ seen : List Nat, (∀ it ∈ a, it.id ∈ seen) →
    iterGo seen a = [] ∧ iterSeen seen a = seen := by
  induction a with
  | nil => intro seen h; exact ⟨rfl, rfl⟩
  | cons it rest ih =>
    intro seen h
    have hh : it.id ∈ seen := h it (List.mem_cons_self it rest)
    rw [iterGo_cons, iterSeen_cons, if_pos hh, if_pos hh]
    exact ih seen (fun x hx => h x (List.mem_cons_of_mem it hx))

theorem iterGo_dup_head (t d u : List Item) (seen : List Nat) :
    iterGo seen (t ++ ((t ++ d) ++ u)) = iterGo seen ((t ++ d) ++ u) := by
  rw [iterGo_append]
  rw [show (t ++ d) ++ u = t ++ (d ++ u) from List.append_assoc t d u]
  rw [iterGo_append t (d ++ u) (iterSeen seen t), iterGo_append t (d ++ u) seen]
  have hall : ∀ it ∈ t, it.id ∈ iterSeen seen t := fun it h => mem_iterSeen_item t seen it h
  obtain ⟨h1, h2⟩ := iterGo_all_seen t (iterSeen seen t) hall
  rw [h1, h2]
  rw [List.nil_append]

theorem dedupFS_nil : dedupFS [] = [] := by rw [dedupFS]

theorem dedupFS_cons (x : Nat) (xs : List Nat) :
    dedupFS (x :: xs) = x :: dedupFS (xs.filter (fun y => y ≠ x)) := by rw [dedupFS]

theorem iterGo_eq_dedupFS (l : List Item) : ∀ seen : List Nat,
    iterGo seen l = dedupFS (((l.map Item.id).filter (fun y => decide (y ∉ seen)))) := by
  induction l with
  | nil => intro seen; rw [iterGo_nil, List.map_nil, List.filter_nil, dedupFS_nil]
  | cons it rest ih =>
    intro seen
    rw [iterGo_cons, List.map_cons]
    by_cases h : it.id ∈ seen
    · rw [if_pos h, List.filter_cons_of_neg (by simp [h]), ih seen]
    · rw [if_neg h, List.filter_cons_of_pos (by simp [h]), dedupFS_cons, ih (seen ++ [it.id])]
      rw [List.filter_filter]
      have hpt : ∀ y ∈ rest.map Item.id,
          decide (y ∉ seen ++ [it.id]) = (decide (y ≠ it.id) && decide (y ∉ seen)) := by
        intro y hy
        by_cases h1 : y = it.id <;> by_cases h2 : y ∈ seen <;>
          simp [h1, h2, List.mem_append]
      rw [List.filter_congr hpt]

theorem iterAnswer_eq_dedupFS (l : List Item) : iterAnswer l = dedupFS (l.map Item.id) := by
  unfold iterAnswer
  rw [iterGo_eq_dedupFS l []]
  congr 1
  apply List.filter_eq_self.mpr
  intro a ha
  simp

theorem pageSlice_nil_facts {source : List Item} {L p : Nat} (hL : 0 < L)
    (h : pageSlice source L p = []) : source.length ≤ p * L := by
  unfold pageSlice at h
  rcases List.take_eq_nil_iff.mp h with h1 | h2
  · omega
  · exact List.drop_eq_nil_iff.mp h2

theorem returnFromLoop_found_now (pos : String) (choices : SDict Item) (pg : Paginator)
    (result : Item) (h : dGet choices pos = some result) :
    returnFromLoop pos choices pg = ([result], .foundBreak) := by
  rw [returnFromLoop.eq_def, h]

theorem returnFromLoop_fatal (pos : String) (choices : SDict Item) (pg : Paginator)
    (h : dGet choices pos = none) (hn : pg.next = none) :
    returnFromLoop pos choices pg =
      ((if pos = "*" then dValues choices else []), .fatalError "There are no more results") := by
  rw [returnFromLoop.eq_def, h]
  dsimp only
  split
  · next page2 pg3 heq => rw [hn] at heq; cases heq
  · rfl

theorem returnFromLoop_step (pos : String) (choices : SDict Item) (pg : Paginator)
    (page : List (Nat × Item)) (pg2 : Paginator)
    (h : dGet choices pos = none) (hn : pg.next = some (page, pg2)) :
    returnFromLoop pos choices pg =
      ((if pos = "*" then dValues choices else []) ++
          (returnFromLoop pos (insertChoices choices page) pg2).1,
        (returnFromLoop pos (insertChoices choices page) pg2).2) := by
  rw [returnFromLoop.eq_def, h]
  dsimp only
  split
  · next page2 pg3 heq =>
    rw [hn] at heq
    cases heq
    rfl
  · next heq => rw [hn] at heq; cases heq

theorem returnFromLoop_star_aux (source : List Item) (L : Nat) (hL : 0 < L) : ∀ n q : Nat,
    source.length - (q + 1) * L ≤ n →
    (returnFromLoop "*" (mkChoices source ((q + 1) * L)) ⟨source, L, some q⟩).2 =
        LoopEnd.fatalError "There are no more results" ∧
    (∃ u, (returnFromLoop "*" (mkChoices source ((q + 1) * L)) ⟨source, L, some q⟩).1 =
        source.take ((q + 1) * L) ++ u) ∧
    ∀ seen, iterGo seen (returnFromLoop "*" (mkChoices source ((q + 1) * L)) ⟨source, L, some q⟩).1 =
        iterGo seen source := by
  have hstar : ∀ m : Nat, dGet (mkChoices source m) "*" = none := by
    intro m
    apply dGet_labelPage_none
    intro j hj
    have := natToDec_ne_star (0 + j)
    simpa using this
  have hlast : ∀ q : Nat, source.length ≤ (q + 1) * L →
      (returnFromLoop "*" (mkChoices source ((q + 1) * L)) ⟨source, L, some q⟩).2 =
          LoopEnd.fatalError "There are no more results" ∧
      (∃ u, (returnFromLoop "*" (mkChoices source ((q + 1) * L)) ⟨source, L, some q⟩).1 =
          source.take ((q + 1) * L) ++ u) ∧
      ∀ seen, iterGo seen (returnFromLoop "*" (mkChoices source ((q + 1) * L)) ⟨source, L, some q⟩).1 =
          iterGo seen source := by
    intro q hlen
    have hsnil : pageSlice source L (q + 1) = [] := pageSlice_nil_of_le hlen
    have hnext : (⟨source, L, some q⟩ : Paginator).next = none := Paginator.next_none hsnil
    have hr := returnFromLoop_fatal "*" (mkChoices source ((q + 1) * L)) ⟨source, L, some q⟩
      (hstar _) hnext
    rw [hr]
    have hys : (if ("*" : String) = "*" then dValues (mkChoices source ((q + 1) * L)) else []) =
        source.take ((q + 1) * L) := by
      rw [if_pos rfl, dValues_mkChoices]
    refine ⟨rfl, ⟨[], ?_⟩, ?_⟩
    · show (if ("*" : String) = "*" then dValues (mkChoices source ((q + 1) * L)) else []) = _
      rw [hys, List.append_nil]
    · intro seen
      show iterGo seen (if ("*" : String) = "*" then dValues (mkChoices source ((q + 1) * L)) else []) = _
      rw [hys, List.take_of_length_le hlen]
  intro n
  induction n with
  | zero =>
    intro q hb
    exact hlast q (by omega)
  | succ n ih =>
    intro q hb
    by_cases hs : pageSlice source L (q + 1) = []
    · exact hlast q (pageSlice_nil_facts hL hs)
    · have hfacts := pageSlice_ne_nil_facts hs
      have hnext : (⟨source, L, some q⟩ : Paginator).next =
          some (enumFromL ((q + 1) * L) (pageSlice source L (q + 1)), ⟨source, L, some (q + 1)⟩) :=
        Paginator.next_some hs
      have hip : insertChoices (mkChoices source ((q + 1) * L))
          (enumFromL ((q + 1) * L) (pageSlice source L (q + 1))) =
            mkChoices source ((q + 1 + 1) * L) := by
        have h2 : (q + 1 + 1) * L = (q + 1) * L + L := by ring
        rw [h2]
        exact insertChoices_page source L (q + 1)
      have hr := returnFromLoop_step "*" (mkChoices source ((q + 1) * L)) ⟨source, L, some q⟩
        _ _ (hstar _) hnext
      rw [hip] at hr
      have hb2 : source.length - (q + 1 + 1) * L ≤ n := by
        have h2 : (q + 1 + 1) * L = (q + 1) * L + L := by ring
        omega
      obtain ⟨ih1, ⟨u, ihu⟩, ih3⟩ := ih (q + 1) hb2
      have hys : (if ("*" : String) = "*" then dValues (mkChoices source ((q + 1) * L)) else []) =
          source.take ((q + 1) * L) := by
        rw [if_pos rfl, dValues_mkChoices]
      rw [hr]
      refine ⟨ih1, ⟨(returnFromLoop "*" (mkChoices source ((q + 1 + 1) * L)) ⟨source, L, some (q + 1)⟩).1, ?_⟩, ?_⟩
      · show (if ("*" : String) = "*" then dValues (mkChoices source ((q + 1) * L)) else []) ++ _ = _
        rw [hys]
      · intro seen
        show iterGo seen ((if ("*" : String) = "*" then dValues (mkChoices source ((q + 1) * L)) else []) ++
          (returnFromLoop "*" (mkChoices source ((q + 1 + 1) * L)) ⟨source, L, some (q + 1)⟩).1) = _
        rw [hys]
        have htk : source.take ((q + 1 + 1) * L) =
            source.take ((q + 1) * L) ++ pageSlice source L (q + 1) := by
          have h2 : (q + 1 + 1) * L = (q + 1) * L + L := by ring
          rw [h2, List.take_add]
          rfl
        rw [ihu, htk, List.append_assoc _ _ u]
        rw [show source.take ((q + 1) * L) ++ (pageSlice source L (q + 1) ++ u) =
          (source.take ((q + 1) * L) ++ pageSlice source L (q + 1)) ++ u from
            (List.append_assoc _ _ _).symm]
        rw [iterGo_dup_head]
        rw [← htk, ← ihu]
        exact ih3 seen

theorem returnFromLoop_star (source : List Item) (L : Nat) (hL : 0 < L) (q : Nat) :
    (returnFromLoop "*" (mkChoices source ((q + 1) * L)) ⟨source, L, some q⟩).2 =
        LoopEnd.fatalError "There are no more results" ∧
    (∃ u, (returnFromLoop "*" (mkChoices source ((q + 1) * L)) ⟨source, L, some q⟩).1 =
        source.take ((q + 1) * L) ++ u) ∧
    ∀ seen, iterGo seen (returnFromLoop "*" (mkChoices source ((q + 1) * L)) ⟨source, L, some q⟩).1 =
        iterGo seen source :=
  returnFromLoop_star_aux source L hL source.length q (by omega)

/-- C1: for every source sequence (possibly containing duplicates by
identity), resolving the wildcard label "*" through `MangaDexCommand.prompt`
yields every distinct item identity of the entire source exactly once, in
first-seen order: the deduplicating generator filters out every identity
already yielded in the same resolution. -/
theorem c1_wildcard_distinct_ids (source : List Item) (limit : Nat) (hL : 0 < limit) :
    mdResolvePositional "*" source limit = dedupFS (source.map Item.id) := by
  by_cases hsrc : source = []
  · subst hsrc
    have hn : (Paginator.init [] limit).next = none := by
      apply Paginator.next_none
      show pageSlice [] limit 0 = []
      unfold pageSlice
      simp
    unfold mdResolvePositional returnFrom
    rw [hn]
    rw [List.map_nil, dedupFS_nil]
    rfl
  · have hne0 : pageSlice source limit 0 ≠ [] := by
      intro hx
      have h2 := pageSlice_nil_facts hL hx
      rw [Nat.zero_mul] at h2
      exact hsrc (List.length_eq_zero.mp (by omega))
    have hnext : (Paginator.init source limit).next =
        some (enumFromL 0 (pageSlice source limit 0), (⟨source, limit, some 0⟩ : Paginator)) := by
      have h0 := @Paginator.next_some (Paginator.init source limit) hne0
      have he : Paginator.nextIndex (Paginator.init source limit) = 0 := rfl
      rw [he, Nat.zero_mul] at h0
      exact h0
    have hins : insertChoices [] (enumFromL 0 (pageSlice source limit 0)) =
        mkChoices source ((0 + 1) * limit) := by
      have h1 := insertChoices_page source limit 0
      rw [Nat.zero_mul] at h1
      have h2 : mkChoices source 0 = [] := rfl
      rw [h2] at h1
      have h3 : (0 + 1) * limit = 0 + limit := by ring
      rw [h3]
      exact h1
    unfold mdResolvePositional returnFrom
    rw [hnext]
    show iterAnswer (returnFromLoop "*" (insertChoices [] (enumFromL 0 (pageSlice source limit 0)))
      ⟨source, limit, some 0⟩).1 = dedupFS (source.map Item.id)
    rw [hins]
    obtain ⟨h1, h2, h3⟩ := returnFromLoop_star source limit hL 0
    unfold iterAnswer
    rw [h3 []]
    have h4 := iterAnswer_eq_dedupFS source
    unfold iterAnswer at h4
    exact h4

theorem c1_wildcard_distinct_ids_witness :
    0 < 2 ∧ mdResolvePositional "*" [⟨7, 0⟩, ⟨3, 0⟩, ⟨7, 1⟩, ⟨5, 0⟩, ⟨3, 1⟩] 2 =
      dedupFS (([⟨7, 0⟩, ⟨3, 0⟩, ⟨7, 1⟩, ⟨5, 0⟩, ⟨3, 1⟩] : List Item).map Item.id) :=
  ⟨by decide, c1_wildcard_distinct_ids [⟨7, 0⟩, ⟨3, 0⟩, ⟨7, 1⟩, ⟨5, 0⟩, ⟨3, 1⟩] 2 (by decide)⟩

theorem returnFromLoop_absent_aux (source : List Item) (L : Nat) (hL : 0 < L) (pos : String)
    (hstar : pos ≠ "*") (hpos : ∀ j < source.length, natToDec j ≠ pos) : ∀ n q : Nat,
    source.length - (q + 1) * L ≤ n →
    returnFromLoop pos (mkChoices source ((q + 1) * L)) ⟨source, L, some q⟩ =
      ([], .fatalError "There are no more results") := by
  have hget : ∀ m : Nat, dGet (mkChoices source m) pos = none := by
    intro m
    apply dGet_labelPage_none
    intro j hj
    rw [List.length_take] at hj
    have hjlen : j < source.length := by omega
    simpa using hpos j hjlen
  intro n
  induction n with
  | zero =>
    intro q hb
    have hlen : source.length ≤ (q + 1) * L := by omega
    rw [returnFromLoop_fatal pos _ _ (hget _) (Paginator.next_none (pageSlice_nil_of_le hlen))]
    rw [if_neg hstar]
  | succ n ih =>
    intro q hb
    by_cases hs : pageSlice source L (q + 1) = []
    · rw [returnFromLoop_fatal pos _ _ (hget _) (Paginator.next_none hs)]
      rw [if_neg hstar]
    · have hnext : (⟨source, L, some q⟩ : Paginator).next =
          some (enumFromL ((q + 1) * L) (pageSlice source L (q + 1)), ⟨source, L, some (q + 1)⟩) :=
        Paginator.next_some hs
      have hip : insertChoices (mkChoices source ((q + 1) * L))
          (enumFromL ((q + 1) * L) (pageSlice source L (q + 1))) =
            mkChoices source ((q + 1 + 1) * L) := by
        have h2 : (q + 1 + 1) * L = (q + 1) * L + L := by ring
        rw [h2]
        exact insertChoices_page source L (q + 1)
      have hfacts := pageSlice_ne_nil_facts hs
      have hb2 : source.length - (q + 1 + 1) * L ≤ n := by
        have h2 : (q + 1 + 1) * L = (q + 1) * L + L := by ring
        omega
      rw [returnFromLoop_step pos _ _ _ _ (hget _) hnext]
      rw [hip, ih (q + 1) hb2]
      rw [if_neg hstar]
      rfl

theorem returnFromLoop_found_aux (source : List Item) (L : Nat) (hL : 0 < L) (k : Nat)
    (hk : k < source.length) : ∀ n q : Nat,
    source.length - (q + 1) * L ≤ n →
    returnFromLoop (natToDec k) (mkChoices source ((q + 1) * L)) ⟨source, L, some q⟩ =
      ([source.get ⟨k, hk⟩], .foundBreak) := by
  have hgot : ∀ m : Nat, k < m →
      dGet (mkChoices source m) (natToDec k) = some (source.get ⟨k, hk⟩) := by
    intro m hm
    unfold mkChoices
    have hlt : k < (source.take m).length := by
      rw [List.length_take]
      omega
    have hfind := dGet_labelPage_found (source.take m) 0 k hlt
    rw [show (0 : Nat) + k = k from by omega] at hfind
    rw [hfind]
    congr 1
    simp [List.get_eq_getElem]
  intro n
  induction n with
  | zero =>
    intro q hb
    exact returnFromLoop_found_now _ _ _ _ (hgot _ (by omega))
  | succ n ih =>
    intro q hb
    by_cases hkm : k < (q + 1) * L
    · exact returnFromLoop_found_now _ _ _ _ (hgot _ hkm)
    · have hs : pageSlice source L (q + 1) ≠ [] := by
        intro hx
        have := pageSlice_nil_facts hL hx
        omega
      have hget : dGet (mkChoices source ((q + 1) * L)) (natToDec k) = none := by
        apply dGet_labelPage_none
        intro j hj heq
        have := natToDec_inj heq
        rw [List.length_take] at hj
        omega
      have hnext : (⟨source, L, some q⟩ : Paginator).next =
          some (enumFromL ((q + 1) * L) (pageSlice source L (q + 1)), ⟨source, L, some (q + 1)⟩) :=
        Paginator.next_some hs
      have hip : insertChoices (mkChoices source ((q + 1) * L))
          (enumFromL ((q + 1) * L) (pageSlice source L (q + 1))) =
            mkChoices source ((q + 1 + 1) * L) := by
        have h2 : (q + 1 + 1) * L = (q + 1) * L + L := by ring
        rw [h2]
        exact insertChoices_page source L (q + 1)
      have hfacts := pageSlice_ne_nil_facts hs
      have hb2 : source.length - (q + 1 + 1) * L ≤ n := by
        have h2 : (q + 1 + 1) * L = (q + 1) * L + L := by ring
        omega
      rw [returnFromLoop_step _ _ _ _ _ hget hnext]
      rw [hip, ih (q + 1) hb2]
      rw [if_neg (natToDec_ne_star k)]
      rfl

/-- C5: in direct positional mode the engine fetches pages forward until
the label is found or the source is exhausted; a label that occurs is
returned, and when the source is exhausted without finding the label the
engine reports the fatal error "There are no more results" (which carries
the quoted "no more results") and aborts the whole command. -/
theorem c5_direct_positional (source : List Item) (limit : Nat) (hL : 0 < limit)
    (hne : source ≠ []) :
    (∀ pos : String, pos ≠ "*" → (∀ j < source.length, natToDec j ≠ pos) →
        returnFrom pos source limit = .ended [] (.fatalError "There are no more results")) ∧
    (∀ k : Nat, ∀ hk : k < source.length,
        returnFrom (natToDec k) source limit = .ended [source.get ⟨k, hk⟩] .foundBreak) ∧
    strContains "There are no more results" "no more results" = true := by
  have hne0 : pageSlice source limit 0 ≠ [] := by
    intro hx
    have h2 := pageSlice_nil_facts hL hx
    rw [Nat.zero_mul] at h2
    exact hne (List.length_eq_zero.mp (by omega))
  have hnext : (Paginator.init source limit).next =
      some (enumFromL 0 (pageSlice source limit 0), (⟨source, limit, some 0⟩ : Paginator)) := by
    have h0 := @Paginator.next_some (Paginator.init source limit) hne0
    have he : Paginator.nextIndex (Paginator.init source limit) = 0 := rfl
    rw [he, Nat.zero_mul] at h0
    exact h0
  have hins : insertChoices [] (enumFromL 0 (pageSlice source limit 0)) =
      mkChoices source ((0 + 1) * limit) := by
    have h1 := insertChoices_page source limit 0
    rw [Nat.zero_mul] at h1
    have h2 : mkChoices source 0 = [] := rfl
    rw [h2] at h1
    have h3 : (0 + 1) * limit = 0 + limit := by ring
    rw [h3]
    exact h1
  refine ⟨?_, ?_, by decide⟩
  · intro pos hstar hpos
    unfold returnFrom
    rw [hnext]
    show GenOutcome.ended (returnFromLoop pos (insertChoices [] (enumFromL 0 (pageSlice source limit 0)))
      ⟨source, limit, some 0⟩).1 (returnFromLoop pos (insertChoices [] (enumFromL 0 (pageSlice source limit 0)))
      ⟨source, limit, some 0⟩).2 = _
    rw [hins]
    rw [returnFromLoop_absent_aux source limit hL pos hstar hpos source.length 0 (by omega)]
  · intro k hk
    unfold returnFrom
    rw [hnext]
    show GenOutcome.ended (returnFromLoop (natToDec k) (insertChoices [] (enumFromL 0 (pageSlice source limit 0)))
      ⟨source, limit, some 0⟩).1 (returnFromLoop (natToDec k) (insertChoices [] (enumFromL 0 (pageSlice source limit 0)))
      ⟨source, limit, some 0⟩).2 = _
    rw [hins]
    rw [returnFromLoop_found_aux source limit hL k hk source.length 0 (by omega)]

theorem c5_direct_positional_witness :
    (0 < 10 ∧ ([⟨1, 0⟩, ⟨2, 0⟩, ⟨3, 0⟩] : List Item) ≠ [] ∧
      ("7" : String) ≠ "*" ∧ (∀ j < ([⟨1, 0⟩, ⟨2, 0⟩, ⟨3, 0⟩] : List Item).length, natToDec j ≠ "7")) ∧
    returnFrom "7" [⟨1, 0⟩, ⟨2, 0⟩, ⟨3, 0⟩] 10 =
      .ended [] (.fatalError "There are no more results") :=
  ⟨⟨by decide, by decide, by decide, by decide⟩,
    (c5_direct_positional [⟨1, 0⟩, ⟨2, 0⟩, ⟨3, 0⟩] 10 (by decide) (by decide)).1 "7"
      (by decide) (by decide)⟩

/-- C6: for every empty source sequence the very first page fetch raises the
exhausted condition, the caller-defined `on_empty_error` hook is invoked
exactly once, and the prompt terminates producing no selection — both in the
interactive prompt and in the direct positional generator. -/
theorem c6_empty_source (previewSupported : Bool) (limit : Nat) (inputs : List String)
    (pos : String) :
    promptRun previewSupported [] limit inputs = ⟨.emptyHooked, 1, 1, [], []⟩ ∧
      returnFrom pos [] limit = .empty := by
  have hn : (Paginator.init [] limit).next = none := by
    apply Paginator.next_none
    show pageSlice [] limit 0 = []
    unfold pageSlice
    simp
  constructor
  · unfold promptRun
    rw [hn]
  · unfold returnFrom
    rw [hn]

/-- C10: `MangaDexCommand.prompt` never returns raw items, only identities:
a single non-iterable item becomes the one-element list of its id, and an
iterable result yields the ids of its elements with duplicates by id removed
in first-seen order. -/
theorem c10_md_prompt_ids :
    (∀ it : Item, mdPromptWrap (.item it) = .ids [it.id]) ∧
    (∀ items : List Item, mdPromptWrap (.iterable items) =
      .ids (dedupFS (items.map Item.id))) := by
  refine ⟨fun it => rfl, fun items => ?_⟩
  show MDResult.ids (iterAnswer items) = _
  rw [iterAnswer_eq_dedupFS]

/-- C3 (code bug): on an invalid first input line the loop prints
"Invalid choice, try again" but then executes the insert block with the local
variable `action` never having been assigned, so the prompt dies with
`UnboundLocalError` instead of remaining in Awaiting Input. -/
theorem c3_invalid_input_crashes :
    promptRun false [⟨1, 0⟩, ⟨2, 0⟩, ⟨3, 0⟩] 10 ["xyz"] =
      ⟨.crashed, 0, 1, ["Invalid choice, try again"], []⟩ := by
  decide

/-- C4: when the entered input exactly equals a label present in the current
accumulated choice set (labels are decimal position strings, so they are
nonempty digit strings), the prompt loop returns exactly the item bound to
that label and performs no page fetch before returning. -/
theorem c4_label_returns_item (previewSupported : Bool) (s : PromptState) (answer : String)
    (item : Item)
    (hkeys : ∀ kv ∈ s.choices, kv.1.data ≠ [] ∧ ∀ c ∈ kv.1.data, c.isDigit = true)
    (hfound : dGet s.choices answer = some item) :
    promptStep previewSupported s answer = ⟨.returned item, s, 0, [], []⟩ := by
  have hmem : ∃ kv ∈ s.choices, kv.1 = answer := by
    unfold dGet at hfound
    cases hf : s.choices.find? (fun kv => kv.1 == answer) with
    | none => rw [hf] at hfound; cases hfound
    | some kv =>
      have h1 := List.find?_some hf
      have h2 := List.mem_of_find?_eq_some hf
      exact ⟨kv, h2, eq_of_beq h1⟩
  obtain ⟨kv, hkv, hkey⟩ := hmem
  obtain ⟨hne2, hdig⟩ := hkeys kv hkv
  rw [hkey] at hne2 hdig
  obtain ⟨hp, hn, hpr⟩ := digitKey_not_command answer hne2 hdig
  unfold promptStep
  rw [show (pyStartswith answer "preview" && previewSupported) = false from by rw [hp]; rfl]
  rw [if_neg Bool.false_ne_true, if_neg (by rw [hn]; exact Bool.false_ne_true),
    if_neg (by rw [hpr]; exact Bool.false_ne_true)]
  rw [hfound]

theorem c4_label_returns_item_witness :
    ((∀ kv ∈ ([("0", (⟨5, 0⟩ : Item))] : SDict Item),
        kv.1.data ≠ [] ∧ ∀ c ∈ kv.1.data, c.isDigit = true) ∧
      dGet ([("0", (⟨5, 0⟩ : Item))] : SDict Item) "0" = some ⟨5, 0⟩) ∧
    promptStep false ⟨[("0", ⟨5, 0⟩)], ⟨[⟨5, 0⟩], 10, some 0⟩, none⟩ "0" =
      ⟨.returned ⟨5, 0⟩, ⟨[("0", ⟨5, 0⟩)], ⟨[⟨5, 0⟩], 10, some 0⟩, none⟩, 0, [], []⟩ :=
  ⟨⟨by decide, by decide⟩,
    c4_label_returns_item false ⟨[("0", ⟨5, 0⟩)], ⟨[⟨5, 0⟩], 10, some 0⟩, none⟩ "0" ⟨5, 0⟩
      (by decide) (by decide)⟩

theorem insertChoicesStep_monotone (s : PromptState) (a : NavAction) (pre : List String)
    (k : String) (h : (dGet s.choices k).isSome) :
    (dGet (insertChoicesStep s a pre).state.choices k).isSome := by
  unfold insertChoicesStep
  cases hda : s.paginator.doAction a with
  | ok r =>
    obtain ⟨page, pg2⟩ := r
    exact dGet_insertChoices_isSome page s.choices k h
  | error e => cases e <;> exact h

/-- C7: within one prompt session the accumulated choice set grows
monotonically: whatever the input line (page fetch, preview, or any
recoverable error), every label present before the loop iteration is still
present in the state afterwards; no operation removes an entry. -/
theorem c7_choices_monotone (previewSupported : Bool) (s : PromptState) (answer : String)
    (k : String) (h : (dGet s.choices k).isSome) :
    (dGet (promptStep previewSupported s answer).state.choices k).isSome := by
  unfold promptStep
  by_cases h1 : (pyStartswith answer "preview" && previewSupported) = true
  · rw [if_pos h1]
    cases hg : dGet s.choices (previewArg answer) with
    | some it => exact h
    | none => exact h
  · rw [if_neg h1]
    by_cases h2 : pyStartswith answer "next" = true
    · rw [if_pos h2]
      exact insertChoicesStep_monotone s .next [] k h
    · rw [if_neg h2]
      by_cases h3 : pyStartswith answer "previous" = true
      · rw [if_pos h3]
        exact insertChoicesStep_monotone s .previous [] k h
      · rw [if_neg h3]
        cases hg : dGet s.choices answer with
        | some it => exact h
        | none =>
          cases hl : s.lastAction with
          | none => exact h
          | some a => exact insertChoicesStep_monotone s a _ k h

theorem c7_choices_monotone_witness :
    (dGet ([("0", (⟨5, 0⟩ : Item))] : SDict Item) "0").isSome = true ∧
    (dGet (promptStep false ⟨[("0", ⟨5, 0⟩)], ⟨[⟨5, 0⟩, ⟨6, 0⟩], 1, some 0⟩, none⟩ "next").state.choices
      "0").isSome = true :=
  ⟨by decide,
    c7_choices_monotone false ⟨[("0", ⟨5, 0⟩)], ⟨[⟨5, 0⟩, ⟨6, 0⟩], 1, some 0⟩, none⟩ "next" "0"
      (by decide)⟩

/-- C8 (amended): the interactive dispatch is prefix-based, not
exact-token: an input starting with "preview" (when the variant supports
preview) is handled as a preview command without any page fetch; otherwise
an input starting with "next" (resp. "previous") — not necessarily equal to
that exact token — triggers the corresponding page-fetch attempt; otherwise
an input equal to a label of the choice set returns that item; every
remaining input is rejected with the retry message
"Invalid choice, try again". -/
theorem c8_command_dispatch (previewSupported : Bool) (s : PromptState) (answer : String) :
    ((pyStartswith answer "preview" && previewSupported) = true →
        (promptStep previewSupported s answer).fetchAttempts = 0 ∧
        (promptStep previewSupported s answer).state = s ∧
        (promptStep previewSupported s answer).exit = .looped) ∧
    ((pyStartswith answer "preview" && previewSupported) = false →
      pyStartswith answer "next" = true →
        promptStep previewSupported s answer = insertChoicesStep s .next []) ∧
    ((pyStartswith answer "preview" && previewSupported) = false →
      pyStartswith answer "next" = false → pyStartswith answer "previous" = true →
        promptStep previewSupported s answer = insertChoicesStep s .previous []) ∧
    ((pyStartswith answer "preview" && previewSupported) = false →
      pyStartswith answer "next" = false → pyStartswith answer "previous" = false →
      ∀ item : Item, dGet s.choices answer = some item →
        promptStep previewSupported s answer = ⟨.returned item, s, 0, [], []⟩) ∧
    ((pyStartswith answer "preview" && previewSupported) = false →
      pyStartswith answer "next" = false → pyStartswith answer "previous" = false →
      dGet s.choices answer = none →
        (promptStep previewSupported s answer).errors.head? =
          some "Invalid choice, try again") := by
  refine ⟨?_, ?_, ?_, ?_, ?_⟩
  · intro h1
    unfold promptStep
    rw [if_pos h1]
    cases hg : dGet s.choices (previewArg answer) with
    | some it => exact ⟨rfl, rfl, rfl⟩
    | none => exact ⟨rfl, rfl, rfl⟩
  · intro h1 h2
    unfold promptStep
    rw [if_neg (by rw [h1]; exact Bool.false_ne_true), if_pos h2]
  · intro h1 h2 h3
    unfold promptStep
    rw [if_neg (by rw [h1]; exact Bool.false_ne_true),
      if_neg (by rw [h2]; exact Bool.false_ne_true), if_pos h3]
  · intro h1 h2 h3 item hfound
    unfold promptStep
    rw [if_neg (by rw [h1]; exact Bool.false_ne_true),
      if_neg (by rw [h2]; exact Bool.false_ne_true),
      if_neg (by rw [h3]; exact Bool.false_ne_true), hfound]
  · intro h1 h2 h3 hnone
    unfold promptStep
    rw [if_neg (by rw [h1]; exact Bool.false_ne_true),
      if_neg (by rw [h2]; exact Bool.false_ne_true),
      if_neg (by rw [h3]; exact Bool.false_ne_true), hnone]
    cases hl : s.lastAction with
    | none => rfl
    | some a =>
      dsimp only
      unfold insertChoicesStep
      cases hda : s.paginator.doAction a with
      | ok r =>
        obtain ⟨page, pg2⟩ := r
        rfl
      | error e => cases e <;> rfl

/-- C8 (counterexample): the input "nextfoo" merely begins with "next" and
is not that exact token, yet the loop treats it as a next-page navigation
command: a page fetch occurs, the new page is merged into the choice set
(label "1" appears) and no invalid-choice rejection is printed. -/
theorem c8_exact_token_counterexample :
    (promptStep false ⟨[("0", ⟨1, 0⟩)], ⟨[⟨1, 0⟩, ⟨2, 0⟩], 1, some 0⟩, none⟩
        "nextfoo").fetchAttempts = 1 ∧
    (promptStep false ⟨[("0", ⟨1, 0⟩)], ⟨[⟨1, 0⟩, ⟨2, 0⟩], 1, some 0⟩, none⟩
        "nextfoo").errors = [] ∧
    dGet (promptStep false ⟨[("0", ⟨1, 0⟩)], ⟨[⟨1, 0⟩, ⟨2, 0⟩], 1, some 0⟩, none⟩
        "nextfoo").state.choices "1" = some ⟨2, 0⟩ := by
  decide

theorem c8_command_dispatch_witness :
    ((pyStartswith "nextzz" "preview" && false) = false ∧
      pyStartswith "nextzz" "next" = true) ∧
    promptStep false ⟨[], ⟨[⟨1, 0⟩], 1, none⟩, none⟩ "nextzz" =
      insertChoicesStep ⟨[], ⟨[⟨1, 0⟩], 1, none⟩, none⟩ .next [] :=
  ⟨⟨by decide, by decide⟩,
    (c8_command_dispatch false ⟨[], ⟨[⟨1, 0⟩], 1, none⟩, none⟩ "nextzz").2.1
      (by decide) (by decide)⟩

theorem coverFields_map_eq (g : JVal → String) (d : JVal) (b : Bool) :
    (do
      let idv ← jGet d "id"
      let attr ← jGet d "attributes"
      let desc ← jGet attr "description"
      let vol ← jGet attr "volume"
      let fileName ← jGet attr "fileName"
      let loc ← jGet attr "locale"
      return (CoverArt.mk d idv desc vol fileName (g loc), b) :
        Except String (CoverArt × Bool)) =
      (coverFields g d).map (fun c => (c, b)) := by
  unfold coverFields
  cases jGet d "id" with
  | error e => rfl
  | ok idv =>
    dsimp only [Bind.bind, Except.bind]
    cases jGet d "attributes" with
    | error e => rfl
    | ok attr =>
      dsimp only [Bind.bind, Except.bind]
      cases jGet attr "description" with
      | error e => rfl
      | ok desc =>
        dsimp only [Bind.bind, Except.bind]
        cases jGet attr "volume" with
        | error e => rfl
        | ok vol =>
          dsimp only [Bind.bind, Except.bind]
          cases jGet attr "fileName" with
          | error e => rfl
          | ok fn =>
            dsimp only [Bind.bind, Except.bind]
            cases jGet attr "locale" with
            | error e => rfl
            | ok loc => rfl

/-- C9: `CoverArt.__init__` fetches from the network if and only if the
`data` argument is falsy: for truthy data no call to `get_cover_art` occurs
(the result is independent of the fetcher) and the fields are mapped from
`data`; for falsy data — including an empty mapping, not only `None` — the
constructor instead maps the same fields from `get_cover_art(cover_id)['data']`. -/
theorem c9_cover_init (getCoverArt getCoverArt2 : String → JVal) (getLanguage : JVal → String)
    (coverId : String) (data : JVal) :
    (jFalsy data = false →
        CoverArt.init getCoverArt getLanguage coverId data =
          CoverArt.init getCoverArt2 getLanguage coverId data ∧
        CoverArt.init getCoverArt getLanguage coverId data =
          (coverFields getLanguage data).map (fun c => (c, false))) ∧
    (jFalsy data = true →
        CoverArt.init getCoverArt getLanguage coverId data =
          (jGet (getCoverArt coverId) "data").bind
            (fun d => (coverFields getLanguage d).map (fun c => (c, true)))) ∧
    jFalsy (JVal.jdict []) = true ∧ jFalsy JVal.jnull = true := by
  refine ⟨?_, ?_, rfl, rfl⟩
  · intro hf
    unfold CoverArt.init
    rw [hf]
    rw [if_neg Bool.false_ne_true]
    exact ⟨rfl, coverFields_map_eq getLanguage data false⟩
  · intro hf
    unfold CoverArt.init
    rw [hf]
    rw [if_pos rfl]
    cases jGet (getCoverArt coverId) "data" with
    | error e => rfl
    | ok d => exact coverFields_map_eq getLanguage d true

theorem c9_cover_init_witness :
    jFalsy (JVal.jdict [("id", JVal.jstr "abc"),
        ("attributes", JVal.jdict [("description", JVal.jstr "d"), ("volume", JVal.jstr "1"),
          ("fileName", JVal.jstr "f.png"), ("locale", JVal.jstr "en")])]) = false ∧
    CoverArt.init (fun _ => JVal.jnull) (fun _ => "lang") "cid"
        (JVal.jdict [("id", JVal.jstr "abc"),
          ("attributes", JVal.jdict [("description", JVal.jstr "d"), ("volume", JVal.jstr "1"),
            ("fileName", JVal.jstr "f.png"), ("locale", JVal.jstr "en")])]) =
      (coverFields (fun _ => "lang")
          (JVal.jdict [("id", JVal.jstr "abc"),
            ("attributes", JVal.jdict [("description", JVal.jstr "d"), ("volume", JVal.jstr "1"),
              ("fileName", JVal.jstr "f.png"), ("locale", JVal.jstr "en")])])).map
        (fun c => (c, false)) :=
  ⟨rfl,
    ((c9_cover_init (fun _ => JVal.jnull) (fun _ => JVal.jnull) (fun _ => "lang") "cid"
      (JVal.jdict [("id", JVal.jstr "abc"),
        ("attributes", JVal.jdict [("description", JVal.jstr "d"), ("volume", JVal.jstr "1"),
          ("fileName", JVal.jstr "f.png"), ("locale", JVal.jstr "en")])])).1 rfl).2⟩

theorem dGet_filter {α : Type} (p : String → Bool) (d : SDict α) (key : String) :
    dGet (d.filter (fun kv => p kv.1)) key = if p key = true then dGet d key else none := by
  induction d with
  | nil => by_cases hp : p key = true <;> simp [dGet, hp]
  | cons a d ih =>
    by_cases hpa : p a.1 = true
    · rw [show List.filter (fun kv => p kv.1) (a :: d) =
          a :: List.filter (fun kv => p kv.1) d from List.filter_cons_of_pos (by exact hpa)]
      by_cases hak : a.1 = key
      · rw [dGet_cons, if_pos hak]
        rw [if_pos (by rw [← hak]; exact hpa)]
        rw [dGet_cons, if_pos hak]
      · rw [dGet_cons, if_neg hak, ih]
        by_cases hp : p key = true
        · rw [if_pos hp, if_pos hp, dGet_cons, if_neg hak]
        · rw [if_neg hp, if_neg hp]
    · rw [show List.filter (fun kv => p kv.1) (a :: d) =
          List.filter (fun kv => p kv.1) d from List.filter_cons_of_neg (by simpa using hpa)]
      rw [ih]
      by_cases hp : p key = true
      · rw [if_pos hp, if_pos hp, dGet_cons]
        rw [if_neg (fun hak : a.1 = key => hpa (by rw [hak]; exact hp))]
      · rw [if_neg hp, if_neg hp]

theorem dGet_popKeys (ks : List String) (d : SDict FVal) (key : String) :
    dGet (popKeys d ks) key = if key ∈ ks then none else dGet d key := by
  induction ks generalizing d with
  | nil => simp [popKeys]
  | cons k rest ih =>
    have hstep : popKeys d (k :: rest) = popKeys (d.filter (fun kv => !(kv.1 == k))) rest := rfl
    rw [hstep, ih]
    by_cases hm : key ∈ rest
    · rw [if_pos hm, if_pos (List.mem_cons_of_mem k hm)]
    · rw [if_neg hm]
      have hf := dGet_filter (fun k2 => !(k2 == k)) d key
      rw [hf]
      by_cases hk : key = k
      · rw [if_neg (by simp [hk]), if_pos (by simp [hk])]
      · rw [if_pos (by simp [hk]), if_neg (by simp [hk, hm])]

theorem dGet_some_mem {α : Type} (d : SDict α) (key : String) (v : α)
    (h : dGet d key = some v) : ∃ kv ∈ d, kv.1 = key ∧ kv.2 = v := by
  unfold dGet at h
  cases hf : d.find? (fun kv => kv.1 == key) with
  | none => rw [hf] at h; cases h
  | some kv =>
    rw [hf] at h
    have h1 := List.find?_some hf
    have h2 := List.mem_of_find?_eq_some hf
    refine ⟨kv, h2, eq_of_beq h1, ?_⟩
    simp only [Option.map_some'] at h
    exact Option.some.inj h

/-- C2 (counterexample): for the single token "order[createdAt]=asc" the
nested ordering mapping built by `SearchMangaCommand.__init__` is keyed by
the original full key "order[createdAt]", not by the inner field name
"createdAt" as the claim states. -/
theorem c2_order_inner_key_counterexample :
    parseFilters ["order[createdAt]=asc"] =
      [("order", FVal.fnested [("order[createdAt]", FVal.fstr "asc")])] ∧
    ("order[createdAt]" : String) ≠ "createdAt" :=
  ⟨rfl, by decide⟩

/-- C2 (amended): every key containing 'order' is removed from the flat
filter mapping and placed in the nested ordering mapping under its original
full key with its value untouched (not under the inner field name); keys
without 'order' stay in the flat mapping, and before the final filter
mapping is assembled it binds "order" to the nested ordering mapping. -/
theorem c2_order_extraction (filters : List String) :
    (∀ key : String, strContains key "order" = true →
        dGet (collectOrders (accumulateFilters filters)) key =
          dGet (accumulateFilters filters) key) ∧
    (∀ key : String, strContains key "order" = true → key ≠ "order" →
        dGet (parseFilters filters) key = none) ∧
    (∀ key : String, strContains key "order" = false →
        dGet (parseFilters filters) key = dGet (accumulateFilters filters) key) ∧
    dGet (parseFilters filters) "order" =
      some (.fnested (collectOrders (accumulateFilters filters))) := by
  have hpf : parseFilters filters =
      dInsert (popKeys (accumulateFilters filters)
          ((collectOrders (accumulateFilters filters)).map (fun kv => kv.1))) "order"
        (FVal.fnested (collectOrders (accumulateFilters filters))) := rfl
  refine ⟨?_, ?_, ?_, ?_⟩
  · intro key hk
    have h := dGet_filter (fun k2 => strContains k2 "order") (accumulateFilters filters) key
    rw [if_pos hk] at h
    exact h
  · intro key hk hne
    rw [hpf, dGet_insert, if_neg hne, dGet_popKeys]
    by_cases hm : key ∈ (collectOrders (accumulateFilters filters)).map (fun kv => kv.1)
    · rw [if_pos hm]
    · rw [if_neg hm]
      cases hg : dGet (accumulateFilters filters) key with
      | none => rfl
      | some v =>
        exfalso
        obtain ⟨kv, hkv, hk1, hk2⟩ := dGet_some_mem _ _ _ hg
        apply hm
        rw [List.mem_map]
        refine ⟨kv, ?_, hk1⟩
        exact List.mem_filter.mpr ⟨hkv, by rw [hk1]; exact hk⟩
  · intro key hk
    have hne : key ≠ "order" := by
      intro hx
      rw [hx] at hk
      exact absurd hk (by decide)
    rw [hpf, dGet_insert, if_neg hne, dGet_popKeys]
    by_cases hm : key ∈ (collectOrders (accumulateFilters filters)).map (fun kv => kv.1)
    · exfalso
      obtain ⟨kv, hkv, hk1⟩ := List.mem_map.mp hm
      have hmem := (List.mem_filter.mp hkv).2
      rw [hk1] at hmem
      rw [hk] at hmem
      cases hmem
    · rw [if_neg hm]
  · rw [hpf, dGet_insert, if_pos rfl]

theorem c2_order_extraction_witness :
    (strContains "order[createdAt]" "order" = true ∧ ("order[createdAt]" : String) ≠ "order") ∧
    dGet (parseFilters ["order[createdAt]=asc", "status=ongoing"]) "order[createdAt]" = none ∧
    dGet (parseFilters ["order[createdAt]=asc", "status=ongoing"]) "order" =
      some (.fnested (collectOrders (accumulateFilters ["order[createdAt]=asc", "status=ongoing"]))) :=
  ⟨⟨by decide, by decide⟩,
    (c2_order_extraction ["order[createdAt]=asc", "status=ongoing"]).2.1 "order[createdAt]"
      (by decide) (by decide),
    (c2_order_extraction ["order[createdAt]=asc", "status=ongoing"]).2.2.2⟩
